import Mathlib

/-!
Verification of the Secure-Password-Manager-App core against its
natural-language specification.

The development shallowly embeds the Python sources:
  * `src/functions/password_functions.py` — `generate_password`,
    `analyse_password_strength`;
  * `src/classes/password_manager.py` — the `PasswordManager` class:
    key generation (`_generate_key`), vault load/save
    (`_load_passwords` / `save_passwords`) and the in-memory store
    operations (`add_password`, `get_password`, `delete_password`,
    `list_services`, `list_usernames`).

Python dictionaries are embedded as association lists with dict update
semantics (replace-in-place on existing key, append on fresh key).
The third-party `cryptography.fernet.Fernet` authenticated cipher and
the PBKDF2 key-derivation function are embedded by their documented
contracts: a derived key is determined by (password, salt) and distinct
inputs give distinct keys; a Fernet token records the key and the fresh
IV it was produced under, decryption succeeds exactly under the same
key and returns the original plaintext.  JSON serialisation is embedded
at the level of JSON values (`json.dumps`/`json.loads` round-trip on
values, textual rendering elided).
-/

namespace SPM

/-! ## Character classes (Python `string` module, ASCII) -/

/-- ASCII lowercase test, `[a-z]`. -/
def isLowerC (c : Char) : Bool := 'a' ≤ c && c ≤ 'z'

/-- ASCII uppercase test, `[A-Z]`. -/
def isUpperC (c : Char) : Bool := 'A' ≤ c && c ≤ 'Z'

/-- ASCII digit test, `[0-9]`. -/
def isDigitC (c : Char) : Bool := '0' ≤ c && c ≤ '9'

/-- Printable ASCII punctuation, the character set of `string.punctuation`:
codes 33–126 that are not alphanumeric. -/
def isPunctC (c : Char) : Bool :=
  33 ≤ c.toNat && c.toNat ≤ 126 && !(isLowerC c || isUpperC c || isDigitC c)

/-- The list `string.ascii_lowercase` = a..z. -/
def lowerChars : List Char := (List.range 26).map (fun i => Char.ofNat (97 + i))

/-- The list `string.ascii_uppercase` = A..Z. -/
def upperChars : List Char := (List.range 26).map (fun i => Char.ofNat (65 + i))

/-- The list `string.digits` = 0..9. -/
def digitChars : List Char := (List.range 10).map (fun i => Char.ofNat (48 + i))

/-- The list `string.punctuation` (ASCII order). -/
def punctChars : List Char :=
  ((List.range 127).map Char.ofNat).filter isPunctC

/-! ## `analyse_password_strength` (src/functions/password_functions.py) -/

/-- ASCII `str.lower` on a single character. -/
def pyLower (c : Char) : Char :=
  if isUpperC c then Char.ofNat (c.toNat + 32) else c

/-- Whether `pat` is a prefix of `s` (helper for substring search). -/
def leadsWith : List Char → List Char → Bool
  | [], _ => true
  | _ :: _, [] => false
  | p :: ps, c :: cs => p = c && leadsWith ps cs

/-- Whether `pat` occurs as a contiguous substring of `s`
(`re.search` of a literal pattern). -/
def containsPat (pat : List Char) : List Char → Bool
  | [] => leadsWith pat []
  | c :: cs => leadsWith pat (c :: cs) || containsPat pat cs

/-- Three identical consecutive characters (`re.search(r'(.)\1\1', ...)`). -/
def hasTripleRepeat : List Char → Bool
  | a :: b :: c :: rest => (a = b && b = c) || hasTripleRepeat (b :: c :: rest)
  | _ => false

/-- Result dictionary of `analyse_password_strength`. -/
structure StrengthInfo where
  score : Int
  strength : String
  feedback : List String
  has_lowercase : Bool
  has_uppercase : Bool
  has_digit : Bool
  has_special : Bool
deriving DecidableEq

/-- Embedding of `analyse_password_strength` from
src/functions/password_functions.py lines 116–200. -/
def analyse_password_strength (password : String) : StrengthInfo :=
  let chars := password.data
  let lenPart : Int × List String :=
    if password.length < 8 then (-2, ["Password is too short (< 8 characters)"])
    else if 12 ≤ password.length then (2, ["Good length"])
    else (1, [])
  let has_lowercase := chars.any isLowerC
  let has_uppercase := chars.any isUpperC
  let has_digit := chars.any isDigitC
  let has_special := chars.any (fun c => !(isLowerC c || isUpperC c || isDigitC c))
  let char_types : Nat :=
    (if has_lowercase then 1 else 0) + (if has_uppercase then 1 else 0) +
    (if has_digit then 1 else 0) + (if has_special then 1 else 0)
  let varPart : Int × List String :=
    if char_types = 4 then (3, ["Excellent character variety"])
    else if char_types = 3 then (2, ["Good character variety"])
    else if char_types = 2 then (1, ["Limited character variety"])
    else (-1, ["Poor character variety"])
  let lowered := chars.map pyLower
  let patPart : Int × List String :=
    if containsPat "12345".data lowered || containsPat "qwerty".data lowered ||
       containsPat "password".data lowered || containsPat "admin".data lowered then
      (-3, ["Contains common patterns"])
    else (0, [])
  let repPart : Int × List String :=
    if hasTripleRepeat chars then (-1, ["Contains repeating characters"])
    else (0, [])
  let score := lenPart.1 + varPart.1 + patPart.1 + repPart.1
  let strength :=
    if 4 ≤ score then "Strong" else if 2 ≤ score then "Medium" else "Weak"
  { score := score
    strength := strength
    feedback := lenPart.2 ++ varPart.2 ++ patPart.2 ++ repPart.2
    has_lowercase := has_lowercase
    has_uppercase := has_uppercase
    has_digit := has_digit
    has_special := has_special }

/-! ## Python dict model: association lists with dict update semantics -/

/-- Dictionary lookup (`d[k]` / `k in d`). -/
def lookup? {α : Type} (k : String) : List (String × α) → Option α
  | [] => none
  | (k', v) :: rest => if k' = k then some v else lookup? k rest

/-- Dictionary update `d[k] = v`: replaces in place if `k` is present
(first occurrence), otherwise appends, matching CPython insertion order. -/
def setKey {α : Type} (k : String) (v : α) : List (String × α) → List (String × α)
  | [] => [(k, v)]
  | (k', v') :: rest => if k' = k then (k, v) :: rest else (k', v') :: setKey k v rest

/-- Dictionary deletion `del d[k]` (removes the first occurrence). -/
def delKey {α : Type} (k : String) : List (String × α) → List (String × α)
  | [] => []
  | (k', v') :: rest => if k' = k then rest else (k', v') :: delKey k rest

/-! ## Credential store (the `passwords` dictionary) -/

/-- One entry of the inner dictionary: the value stored by `add_password`. -/
structure CredentialRecord where
  password : String
  created_at : Int
  strength : StrengthInfo
deriving DecidableEq

/-- Inner dictionary: username → record. -/
abbrev Inner := List (String × CredentialRecord)

/-- The `passwords` dictionary: service → username → record. -/
abbrev Store := List (String × Inner)

/-- Embedding of `PasswordManager.add_password` (lines 155–173): creates the
service's inner dict if absent, then sets the (username → record) entry.
`now` stands for `time.time()`. -/
def add_password (service username password : String) (now : Int) (st : Store) : Store :=
  let inner := (lookup? service st).getD []
  setKey service
    (setKey username
      { password := password, created_at := now,
        strength := analyse_password_strength password } inner) st

/-- Embedding of `PasswordManager.get_password` (lines 175–188). -/
def get_password (service username : String) (st : Store) : Option String :=
  match lookup? service st with
  | none => none
  | some inner =>
    match lookup? username inner with
    | none => none
    | some rec => some rec.password

/-- Embedding of `PasswordManager.list_services` (lines 190–197). -/
def list_services (st : Store) : List String := st.map Prod.fst

/-- Embedding of `PasswordManager.list_usernames` (lines 199–211). -/
def list_usernames (service : String) (st : Store) : List String :=
  match lookup? service st with
  | none => []
  | some inner => inner.map Prod.fst

/-- Embedding of `PasswordManager.delete_password` (lines 213–235): removes
the (service, username) entry when present, removes the service when its
inner dict becomes empty, and returns the updated store together with the
boolean result. -/
def delete_password (service username : String) (st : Store) : Store × Bool :=
  match lookup? service st with
  | none => (st, false)
  | some inner =>
    match lookup? username inner with
    | none => (st, false)
    | some _ =>
      let inner' := delKey username inner
      if inner'.isEmpty then (delKey service st, true)
      else (setKey service inner' st, true)

/-- Whether a record exists at (service, username)
(`service in self.passwords and username in self.passwords[service]`). -/
def has_entry (service username : String) (st : Store) : Bool :=
  match lookup? service st with
  | none => false
  | some inner => (lookup? username inner).isSome

/-! ## Key derivation (`_generate_key`, lines 78–102)

PBKDF2-HMAC-SHA256 is embedded by its contract: the derived key is a
pure function of (password, salt), and distinct inputs yield distinct
keys (idealised collision-freedom of the KDF). -/

/-- The hardcoded salt of `_generate_key` line 92: `b'staticSalt123456'`. -/
def staticSaltLiteral : String := "staticSalt123456"

/-- A derived Fernet key, determined by the KDF inputs. -/
structure VaultKey where
  password : String
  salt : String
deriving DecidableEq

/-- The salt value `_generate_key` passes to PBKDF2HMAC for a given
master password: the code ignores the password and always uses the
static literal. -/
def salt_used (_password : String) : String := staticSaltLiteral

/-- Embedding of `_generate_key`: derives the session key from the
master password and the (static) salt. -/
def generate_key (password : String) : VaultKey :=
  { password := password, salt := salt_used password }

/-! ## Fernet cipher (by its documented contract)

A Fernet token binds the key it was produced under and a fresh random
IV; decryption authenticates and succeeds exactly under the same key,
returning the original plaintext, and fails closed otherwise. -/

/-- A JSON value (the plaintext handed to the cipher; `json.dumps` /
`json.loads` round-trip on values, textual rendering elided). -/
inductive Json where
  | jstr : String → Json
  | jnum : Int → Json
  | jbool : Bool → Json
  | jarr : List Json → Json
  | jobj : List (String × Json) → Json

/-- A Fernet token: the key it was encrypted under, the fresh IV drawn
for this call, and the authenticated payload. -/
structure Ciphertext where
  key : VaultKey
  iv : Nat
  payload : Json

/-- Fernet `encrypt`: never fails; records key, fresh IV and payload. -/
def fernetEncrypt (key : VaultKey) (iv : Nat) (payload : Json) : Ciphertext :=
  { key := key, iv := iv, payload := payload }

/-- Fernet `decrypt`: authenticated — returns the payload under the
matching key and fails closed (`none`, i.e. `InvalidToken`) otherwise. -/
def fernetDecrypt (key : VaultKey) (ct : Ciphertext) : Option Json :=
  if ct.key = key then some ct.payload else none

/-! ## JSON serialisation of the store (`json.dumps` / `json.loads`) -/

/-- Encoding of a `StrengthInfo` dictionary as a JSON value. -/
def encodeStrength (s : StrengthInfo) : Json :=
  .jobj [("score", .jnum s.score), ("strength", .jstr s.strength),
         ("feedback", .jarr (s.feedback.map .jstr)),
         ("has_lowercase", .jbool s.has_lowercase),
         ("has_uppercase", .jbool s.has_uppercase),
         ("has_digit", .jbool s.has_digit),
         ("has_special", .jbool s.has_special)]

/-- Encoding of a credential record as a JSON value. -/
def encodeRecord (r : CredentialRecord) : Json :=
  .jobj [("password", .jstr r.password), ("created_at", .jnum r.created_at),
         ("strength", encodeStrength r.strength)]

/-- Encoding of the inner username → record dictionary. -/
def encodeInner (inner : Inner) : Json :=
  .jobj (inner.map (fun p => (p.1, encodeRecord p.2)))

/-- Encoding of the whole `passwords` dictionary (`json.dumps`). -/
def encodeStore (st : Store) : Json :=
  .jobj (st.map (fun p => (p.1, encodeInner p.2)))

/-- Option-valued map over a list, failing if any element fails. -/
def omapM {α β : Type} (f : α → Option β) : List α → Option (List β)
  | [] => some []
  | a :: as =>
    match f a with
    | none => none
    | some b => (omapM f as).map (b :: ·)

/-- Decoding of a JSON string. -/
def decodeStr : Json → Option String
  | .jstr s => some s
  | _ => none

/-- Decoding of a `StrengthInfo` dictionary from its JSON value. -/
def decodeStrength : Json → Option StrengthInfo
  | .jobj [("score", .jnum sc), ("strength", .jstr st),
           ("feedback", .jarr fb),
           ("has_lowercase", .jbool lo), ("has_uppercase", .jbool up),
           ("has_digit", .jbool di), ("has_special", .jbool sp)] =>
    (omapM decodeStr fb).map
      (fun fbs => ⟨sc, st, fbs, lo, up, di, sp⟩)
  | _ => none

/-- Decoding of a credential record from its JSON value. -/
def decodeRecord : Json → Option CredentialRecord
  | .jobj [("password", .jstr pw), ("created_at", .jnum t), ("strength", js)] =>
    (decodeStrength js).map (fun s => ⟨pw, t, s⟩)
  | _ => none

/-- Decoding of the inner username → record dictionary. -/
def decodeInner : Json → Option Inner
  | .jobj l => omapM (fun p => (decodeRecord p.2).map (fun r => (p.1, r))) l
  | _ => none

/-- Decoding of the whole `passwords` dictionary (`json.loads` read back
through the vault schema of §6). -/
def decodeStore : Json → Option Store
  | .jobj l => omapM (fun p => (decodeInner p.2).map (fun i => (p.1, i))) l
  | _ => none

/-! ## Vault persistence (`_load_passwords` / `save_passwords`) -/

/-- State of the vault file as observed by `_load_passwords`. -/
inductive FileContent where
  | absent
  | emptyFile
  | data (ct : Ciphertext)

/-- Embedding of the load path of `__init__` + `_load_passwords`
(lines 55–76 and 104–130): when the file is absent, `_load_passwords`
is never called and `passwords` stays `{}`; when the file is empty the
`else` branch keeps `{}`; otherwise the file is decrypted and parsed,
and the blanket `except` clause turns any failure (wrong master
password, tampering, bad schema) into an empty `passwords` dictionary. -/
def load_passwords (key : VaultKey) : FileContent → Store
  | .absent => []
  | .emptyFile => []
  | .data ct =>
    match fernetDecrypt key ct with
    | none => []
    | some j =>
      match decodeStore j with
      | none => []
      | some st => st

/-- Embedding of the ciphertext produced by `save_passwords`
(lines 132–153): `json.dumps` of the store, encrypted under the session
key with the fresh IV Fernet draws for this call. -/
def save_passwords (key : VaultKey) (iv : Nat) (st : Store) : Ciphertext :=
  fernetEncrypt key iv (encodeStore st)

/-- Filesystem actions a save routine may perform, the vocabulary
needed to state the atomic-replace policy of §4.4. -/
inductive FsEvent where
  | writeFile (path : String) (ct : Ciphertext)
  | renameFile (src dst : String)

/-- Whether an event is a rename/replace step. -/
def FsEvent.isRename : FsEvent → Bool
  | .renameFile _ _ => true
  | _ => false

/-- The path the written data of an event lands at. -/
def FsEvent.targetPath : FsEvent → String
  | .writeFile p _ => p
  | .renameFile _ dst => dst

/-- The vault path hardcoded in `__init__` line 65. -/
def dataFilePath : String := "data/passwords.enc"

/-- Embedding of the filesystem trace of `save_passwords` (lines
139–150): the code opens `self.data_file` itself with mode `wb` and
writes the ciphertext into it directly — a single in-place write, no
temporary file and no rename. -/
def save_trace (key : VaultKey) (iv : Nat) (st : Store) : List FsEvent :=
  [FsEvent.writeFile dataFilePath (save_passwords key iv st)]

/-! ## Serialisation round-trip lemmas -/

/-- Decoding inverts encoding on feedback lists. -/
theorem omapM_decodeStr (l : List String) :
    omapM decodeStr (l.map Json.jstr) = some l := by
  induction l with
  | nil => rfl
  | cons a as ih => simp [omapM, decodeStr, ih]

/-- Decoding inverts encoding on strength dictionaries. -/
theorem decodeStrength_encodeStrength (s : StrengthInfo) :
    decodeStrength (encodeStrength s) = some s := by
  simp [encodeStrength, decodeStrength, omapM_decodeStr]

/-- Decoding inverts encoding on credential records. -/
theorem decodeRecord_encodeRecord (r : CredentialRecord) :
    decodeRecord (encodeRecord r) = some r := by
  simp [encodeRecord, decodeRecord, decodeStrength_encodeStrength]

/-- Decoding inverts encoding on inner dictionaries. -/
theorem decodeInner_encodeInner (inner : Inner) :
    decodeInner (encodeInner inner) = some inner := by
  simp only [encodeInner, decodeInner]
  induction inner with
  | nil => rfl
  | cons a rest ih => simp [omapM, decodeRecord_encodeRecord, ih]

/-- Decoding inverts encoding on whole stores. -/
theorem decodeStore_encodeStore (st : Store) :
    decodeStore (encodeStore st) = some st := by
  simp only [encodeStore, decodeStore]
  induction st with
  | nil => rfl
  | cons a rest ih => simp [omapM, decodeInner_encodeInner, ih]

/-! ## Claim theorems: persistence -/

/-- C1: for every store S and master password P, saving S with the cipher
derived from P and loading with the cipher derived from the same P yields
S back — serialize, encrypt, write, read, decrypt, deserialize round-trips
to the original mapping. -/
theorem save_load_round_trip (p : String) (iv : Nat) (st : Store) :
    load_passwords (generate_key p)
      (FileContent.data (save_passwords (generate_key p) iv st)) = st := by
  simp [load_passwords, save_passwords, fernetEncrypt, fernetDecrypt,
        decodeStore_encodeStore]

/-- C2 (code evidence): loading a vault saved under password `p` with the
key derived from a different password `q` does not surface any failure —
the blanket `except` clause of `_load_passwords` swallows the
`InvalidToken` error and silently substitutes the empty store, the very
same observable outcome as an absent file. -/
theorem wrong_password_load_silently_empties (p q : String) (iv : Nat)
    (st : Store) (h : p ≠ q) :
    load_passwords (generate_key q)
      (FileContent.data (save_passwords (generate_key p) iv st)) = []
    ∧ load_passwords (generate_key q) FileContent.absent = [] := by
  refine ⟨?_, rfl⟩
  have hk : generate_key p ≠ generate_key q := by
    intro he
    exact h (congrArg VaultKey.password he)
  simp [load_passwords, save_passwords, fernetEncrypt, fernetDecrypt, hk]

/-- Concrete store used to instantiate the wrong-password scenario. -/
def demoStore : Store := add_password "github" "alice" "Tr0ub4dor" 0 []

/-- C2 witness: a vault holding one github credential, saved under
"master" and loaded under "guess", comes back as the empty store. -/
theorem wrong_password_load_silently_empties_witness :
    load_passwords (generate_key "guess")
      (FileContent.data (save_passwords (generate_key "master") 0 demoStore)) = []
    ∧ load_passwords (generate_key "guess") FileContent.absent = [] :=
  wrong_password_load_silently_empties "master" "guess" 0 demoStore (by decide)

/-- C3 (code evidence): the filesystem trace of `save_passwords` is a
single direct write of the ciphertext to `data/passwords.enc` — there is
no temporary-file write and no rename/replace step, contrary to the
atomic-save policy of §4.4. -/
theorem save_trace_writes_in_place (key : VaultKey) (iv : Nat) (st : Store) :
    save_trace key iv st
      = [FsEvent.writeFile dataFilePath (save_passwords key iv st)]
    ∧ (save_trace key iv st).all (fun e => !e.isRename) = true := ⟨rfl, rfl⟩

/-- C5 (code evidence): `_generate_key` feeds the same hardcoded salt
`staticSalt123456` to PBKDF2 for every vault, so two independently
created vaults receive identical salts, not distinct ones. -/
theorem salt_is_static_across_vaults (p1 p2 : String) :
    salt_used p1 = salt_used p2
    ∧ salt_used p1 = staticSaltLiteral
    ∧ (generate_key p1).salt = (generate_key p2).salt := ⟨rfl, rfl, rfl⟩

/-- C6: two encryption calls on the identical plaintext under the same
key with distinct fresh IVs produce ciphertexts that are not
byte-identical, so successive saves of an unchanged vault differ. -/
theorem ciphertext_nondeterminism (key : VaultKey) (iv1 iv2 : Nat)
    (st : Store) (h : iv1 ≠ iv2) :
    save_passwords key iv1 st ≠ save_passwords key iv2 st := by
  intro he
  exact h (congrArg Ciphertext.iv he)

/-- C6 witness: saving the empty store twice under the key for "master"
with the IVs 0 and 1 yields distinct ciphertexts. -/
theorem ciphertext_nondeterminism_witness :
    save_passwords (generate_key "master") 0 []
      ≠ save_passwords (generate_key "master") 1 [] :=
  ciphertext_nondeterminism (generate_key "master") 0 1 [] (by decide)

/-- C7: loading when the vault file is absent yields the empty store
(first run), and loading a zero-byte vault file also yields the empty
store; neither case is an error. -/
theorem load_absent_or_empty_file (key : VaultKey) :
    load_passwords key FileContent.absent = []
    ∧ load_passwords key FileContent.emptyFile = [] := ⟨rfl, rfl⟩

/-! ## Claim theorems: store invariant and delete semantics -/

/-- The store invariant of §3: no service maps to an empty inner
dictionary. -/
def store_inv (st : Store) : Bool := st.all (fun p => !p.2.isEmpty)

/-- One mutation of the `passwords` dictionary driven by the shell. -/
inductive StoreOp where
  | addOp (service username password : String) (now : Int)
  | delOp (service username : String)

/-- Application of a single mutation to the store. -/
def applyOp (st : Store) : StoreOp → Store
  | .addOp s u pw t => add_password s u pw t st
  | .delOp s u => (delete_password s u st).1

/-- The store reached from the empty vault by a sequence of mutations. -/
def runOps (ops : List StoreOp) : Store := ops.foldl applyOp []

/-- Updating one key of a dictionary keeps a per-entry invariant when
the new entry satisfies it. -/
theorem all_setKey {α : Type} (p : String × α → Bool) (k : String) (v : α)
    (l : List (String × α)) (hv : p (k, v) = true) (hl : l.all p = true) :
    (setKey k v l).all p = true := by
  induction l with
  | nil => simp [setKey, hv]
  | cons a rest ih =>
    obtain ⟨k', v'⟩ := a
    simp only [List.all_cons, Bool.and_eq_true] at hl
    by_cases hk : k' = k
    · simp [setKey, hk, hv, hl.2]
    · simp [setKey, hk, hl.1, ih hl.2]

/-- Deleting a key of a dictionary keeps a per-entry invariant. -/
theorem all_delKey {α : Type} (p : String × α → Bool) (k : String)
    (l : List (String × α)) (hl : l.all p = true) :
    (delKey k l).all p = true := by
  induction l with
  | nil => exact hl
  | cons a rest ih =>
    obtain ⟨k', v'⟩ := a
    simp only [List.all_cons, Bool.and_eq_true] at hl
    by_cases hk : k' = k
    · simpa [delKey, hk] using hl.2
    · simp [delKey, hk, hl.1, ih hl.2]

/-- A dictionary update never produces an empty dictionary. -/
theorem setKey_isEmpty {α : Type} (k : String) (v : α)
    (l : List (String × α)) : (setKey k v l).isEmpty = false := by
  cases l with
  | nil => rfl
  | cons a rest =>
    obtain ⟨k', v'⟩ := a
    by_cases hk : k' = k <;> simp [setKey, hk]

/-- `add_password` preserves the store invariant. -/
theorem store_inv_add (s u pw : String) (t : Int) (st : Store)
    (h : store_inv st = true) :
    store_inv (add_password s u pw t st) = true := by
  unfold store_inv add_password
  exact all_setKey _ _ _ _ (by simp [setKey_isEmpty]) h

/-- `delete_password` preserves the store invariant: when the inner
dictionary becomes empty the service entry itself is removed. -/
theorem store_inv_delete (s u : String) (st : Store)
    (h : store_inv st = true) :
    store_inv (delete_password s u st).1 = true := by
  cases h1 : lookup? s st with
  | none => simpa [delete_password, h1] using h
  | some inner =>
    cases h2 : lookup? u inner with
    | none => simpa [delete_password, h1, h2] using h
    | some r =>
      by_cases he : (delKey u inner).isEmpty = true
      · simp only [delete_password, h1, h2, he, if_true]
        exact all_delKey _ s st h
      · simp only [delete_password, h1, h2, he, if_false, Bool.false_eq_true]
        refine all_setKey _ s (delKey u inner) st ?_ h
        simp only [Bool.not_eq_true] at he
        simp [he]

/-- C4: after any finite sequence of add/delete operations starting from
the empty store, no service key maps to an empty username mapping. -/
theorem store_inv_holds (ops : List StoreOp) : store_inv (runOps ops) = true := by
  unfold runOps
  have main : ∀ (l : List StoreOp) (st : Store), store_inv st = true →
      store_inv (List.foldl applyOp st l) = true := by
    intro l
    induction l with
    | nil => intro st h; exact h
    | cons op rest ih =>
      intro st h
      cases op with
      | addOp s u pw t => exact ih _ (store_inv_add s u pw t st h)
      | delOp s u => exact ih _ (store_inv_delete s u st h)
  exact main ops [] rfl

/-- C8: `delete_password` returns true exactly when a record exists at
(service, username), and deleting an absent pair leaves the store
exactly unchanged. -/
theorem delete_password_result (s u : String) (st : Store) :
    (delete_password s u st).2 = has_entry s u st
    ∧ (has_entry s u st = false → (delete_password s u st).1 = st) := by
  cases h1 : lookup? s st with
  | none => simp [delete_password, has_entry, h1]
  | some inner =>
    cases h2 : lookup? u inner with
    | none => simp [delete_password, has_entry, h1, h2]
    | some r =>
      constructor
      · by_cases he : (delKey u inner).isEmpty = true <;>
          simp [delete_password, has_entry, h1, h2, he]
      · intro hf
        simp [has_entry, h1, h2] at hf

/-- C8 witness: deleting the absent pair ("gitlab", "bob") from a store
holding one github credential leaves the store unchanged. -/
theorem delete_password_result_witness :
    (delete_password "gitlab" "bob" demoStore).1 = demoStore :=
  (delete_password_result "gitlab" "bob" demoStore).2 (by decide)

/-! ## `generate_password` (src/functions/password_functions.py 75–113)

The randomness of `random.choice` is supplied as a stream `rand` of
drawn numbers (call `k` uses `rand k`, reduced modulo the sequence
length, matching `random.choice`'s guarantee of returning an element of
the sequence); `random.shuffle` is supplied as a function `shuffle`
whose contract is to permute its input. -/

/-- Model of `random.choice(l)` at the `k`-th draw of the stream. -/
def pick (rand : Nat → Nat) (k : Nat) (l : List Char) : Char :=
  l.getD (rand k % l.length) 'a'

/-- Embedding of `generate_password`: three mandatory class characters
(plus one mandatory special character when requested), a fill of
`length - len(password)` draws from the union alphabet — empty when the
count is negative, as `range` of a negative number is — and a final
shuffle. -/
def generate_password (rand : Nat → Nat) (shuffle : List Char → List Char)
    (length : Int) (include_special : Bool) : String :=
  let lowercase := lowerChars
  let uppercase := upperChars
  let digits := digitChars
  let special := if include_special then punctChars else []
  let base := [pick rand 0 lowercase, pick rand 1 uppercase, pick rand 2 digits]
  let mandatory := if include_special then base ++ [pick rand 3 special] else base
  let all_chars := lowercase ++ uppercase ++ digits ++ special
  let fill := (List.range (length - mandatory.length).toNat).map
    (fun i => pick rand (4 + i) all_chars)
  String.mk (shuffle (mandatory ++ fill))

/-- The fixed all-zero randomness stream (used for concrete runs). -/
def randZero : Nat → Nat := fun _ => 0

/-- A drawn character is an element of the drawn-from sequence. -/
theorem pick_mem (rand : Nat → Nat) (k : Nat) (l : List Char) (h : l ≠ []) :
    pick rand k l ∈ l := by
  have hlen : 0 < l.length := List.length_pos.mpr h
  have hidx : rand k % l.length < l.length := Nat.mod_lt _ hlen
  unfold pick
  rw [List.getD_eq_getElem?_getD, List.getElem?_eq_getElem hidx]
  simp

/-- Every character of `string.ascii_lowercase` is lowercase. -/
theorem lowerChars_lower : ∀ c ∈ lowerChars, isLowerC c = true := by decide

/-- Every character of `string.ascii_uppercase` is uppercase. -/
theorem upperChars_upper : ∀ c ∈ upperChars, isUpperC c = true := by decide

/-- Every character of `string.digits` is a digit. -/
theorem digitChars_digit : ∀ c ∈ digitChars, isDigitC c = true := by decide

/-- Every character of `string.punctuation` is special. -/
theorem punctChars_punct : ∀ c ∈ punctChars, isPunctC c = true := by decide

/-- Every character of the special-free union alphabet is alphanumeric. -/
theorem union_alnum :
    ∀ c ∈ lowerChars ++ upperChars ++ digitChars ++ ([] : List Char),
      (isLowerC c || isUpperC c || isDigitC c) = true := by decide

/-- A shuffled password contains a character class as soon as the
pre-shuffle list has a member of it. -/
theorem any_shuffle (shuffle : List Char → List Char)
    (hsh : ∀ l, List.Perm (shuffle l) l) (L : List Char) (p : Char → Bool)
    (c : Char) (hc : c ∈ L) (hp : p c = true) :
    (String.mk (shuffle L)).data.any p = true :=
  List.any_eq_true.mpr ⟨c, ((hsh L).mem_iff).mpr hc, hp⟩

/-- A shuffled password satisfies a class predicate everywhere as soon
as every pre-shuffle character does. -/
theorem all_shuffle (shuffle : List Char → List Char)
    (hsh : ∀ l, List.Perm (shuffle l) l) (L : List Char) (p : Char → Bool)
    (hall : ∀ c ∈ L, p c = true) :
    (String.mk (shuffle L)).data.all p = true :=
  List.all_eq_true.mpr (fun c hc => hall c (((hsh L).mem_iff).mp hc))

/-- The length of a shuffled password is the pre-shuffle length. -/
theorem length_shuffle (shuffle : List Char → List Char)
    (hsh : ∀ l, List.Perm (shuffle l) l) (L : List Char) :
    (String.mk (shuffle L)).length = L.length := by
  simpa [String.length] using (hsh L).length_eq

/-! ## Claim theorems: password generation -/

/-- C10: with special characters included and length ≥ 4, the generated
password has exactly `length` characters and contains at least one
lowercase letter, one uppercase letter, one digit and one special
character; with special characters excluded and length ≥ 3, it has
exactly `length` characters, contains at least one lowercase letter,
one uppercase letter and one digit, and every character is one of those
three classes. -/
theorem generate_password_classes (rand : Nat → Nat)
    (shuffle : List Char → List Char)
    (hsh : ∀ l, List.Perm (shuffle l) l) (length : Int) :
    (4 ≤ length →
      (generate_password rand shuffle length true).length = length.toNat
      ∧ (generate_password rand shuffle length true).data.any isLowerC = true
      ∧ (generate_password rand shuffle length true).data.any isUpperC = true
      ∧ (generate_password rand shuffle length true).data.any isDigitC = true
      ∧ (generate_password rand shuffle length true).data.any isPunctC = true)
    ∧ (3 ≤ length →
      (generate_password rand shuffle length false).length = length.toNat
      ∧ (generate_password rand shuffle length false).data.any isLowerC = true
      ∧ (generate_password rand shuffle length false).data.any isUpperC = true
      ∧ (generate_password rand shuffle length false).data.any isDigitC = true
      ∧ (generate_password rand shuffle length false).data.all
          (fun c => isLowerC c || isUpperC c || isDigitC c) = true) := by
  constructor
  · intro hlen
    have hrep : generate_password rand shuffle length true
        = String.mk (shuffle (
            ([pick rand 0 lowerChars, pick rand 1 upperChars,
              pick rand 2 digitChars] ++ [pick rand 3 punctChars])
            ++ (List.range (length - 4).toNat).map (fun i =>
                pick rand (4 + i)
                  (lowerChars ++ upperChars ++ digitChars ++ punctChars)))) := rfl
    rw [hrep]
    refine ⟨?_, ?_, ?_, ?_, ?_⟩
    · rw [length_shuffle shuffle hsh]
      simp only [List.length_append, List.length_map, List.length_range,
        List.length_cons, List.length_nil]
      omega
    · exact any_shuffle shuffle hsh _ _ (pick rand 0 lowerChars)
        (by simp) (lowerChars_lower _ (pick_mem rand 0 lowerChars (by decide)))
    · exact any_shuffle shuffle hsh _ _ (pick rand 1 upperChars)
        (by simp) (upperChars_upper _ (pick_mem rand 1 upperChars (by decide)))
    · exact any_shuffle shuffle hsh _ _ (pick rand 2 digitChars)
        (by simp) (digitChars_digit _ (pick_mem rand 2 digitChars (by decide)))
    · exact any_shuffle shuffle hsh _ _ (pick rand 3 punctChars)
        (by simp) (punctChars_punct _ (pick_mem rand 3 punctChars (by decide)))
  · intro hlen
    have hrep : generate_password rand shuffle length false
        = String.mk (shuffle (
            [pick rand 0 lowerChars, pick rand 1 upperChars,
             pick rand 2 digitChars]
            ++ (List.range (length - 3).toNat).map (fun i =>
                pick rand (4 + i)
                  (lowerChars ++ upperChars ++ digitChars ++ [])))) := rfl
    rw [hrep]
    refine ⟨?_, ?_, ?_, ?_, ?_⟩
    · rw [length_shuffle shuffle hsh]
      simp only [List.length_append, List.length_map, List.length_range,
        List.length_cons, List.length_nil]
      omega
    · exact any_shuffle shuffle hsh _ _ (pick rand 0 lowerChars)
        (by simp) (lowerChars_lower _ (pick_mem rand 0 lowerChars (by decide)))
    · exact any_shuffle shuffle hsh _ _ (pick rand 1 upperChars)
        (by simp) (upperChars_upper _ (pick_mem rand 1 upperChars (by decide)))
    · exact any_shuffle shuffle hsh _ _ (pick rand 2 digitChars)
        (by simp) (digitChars_digit _ (pick_mem rand 2 digitChars (by decide)))
    · refine all_shuffle shuffle hsh _ _ ?_
      intro c hc
      rcases List.mem_append.mp hc with hb | hf
      · have hb' : c = pick rand 0 lowerChars ∨ c = pick rand 1 upperChars
            ∨ c = pick rand 2 digitChars := by simpa using hb
        rcases hb' with rfl | rfl | rfl
        · simp [lowerChars_lower _ (pick_mem rand 0 lowerChars (by decide))]
        · simp [upperChars_upper _ (pick_mem rand 1 upperChars (by decide))]
        · simp [digitChars_digit _ (pick_mem rand 2 digitChars (by decide))]
      · obtain ⟨i, _, rfl⟩ := List.mem_map.mp hf
        exact union_alnum _ (pick_mem rand (4 + i) _ (by decide))

/-- C10 witness: with the all-zero stream, the identity shuffle and
length 4, both variants meet their class guarantees. -/
theorem generate_password_classes_witness :
    ((generate_password randZero id 4 true).length = (4 : Int).toNat
      ∧ (generate_password randZero id 4 true).data.any isLowerC = true
      ∧ (generate_password randZero id 4 true).data.any isUpperC = true
      ∧ (generate_password randZero id 4 true).data.any isDigitC = true
      ∧ (generate_password randZero id 4 true).data.any isPunctC = true)
    ∧ ((generate_password randZero id 4 false).length = (4 : Int).toNat
      ∧ (generate_password randZero id 4 false).data.any isLowerC = true
      ∧ (generate_password randZero id 4 false).data.any isUpperC = true
      ∧ (generate_password randZero id 4 false).data.any isDigitC = true
      ∧ (generate_password randZero id 4 false).data.all
          (fun c => isLowerC c || isUpperC c || isDigitC c) = true) :=
  ⟨(generate_password_classes randZero id (fun l => List.Perm.refl l) 4).1
      (by decide),
   (generate_password_classes randZero id (fun l => List.Perm.refl l) 4).2
      (by decide)⟩

/-- C9 counterexample: requesting a generated password of non-positive
length 0 (with special characters) is not rejected — the utility
returns the 4-character password made of the mandatory draws. -/
theorem generate_password_zero_length_returns :
    generate_password randZero id 0 true = "aA0!"
    ∧ (generate_password randZero id 0 true).length = 4 := by decide

/-- C9 amended: `generate_password` performs no length validation; for
every non-positive requested length the fill range is empty and the
utility returns a password of the mandatory characters only — 4
characters when special characters are included, 3 when excluded. -/
theorem generate_password_nonpositive_length (rand : Nat → Nat)
    (shuffle : List Char → List Char)
    (hsh : ∀ l, List.Perm (shuffle l) l) (length : Int)
    (hlen : length ≤ 0) :
    (generate_password rand shuffle length true).length = 4
    ∧ (generate_password rand shuffle length false).length = 3 := by
  have h4 : (length - 4).toNat = 0 := by omega
  have h3 : (length - 3).toNat = 0 := by omega
  constructor
  · have hrep : generate_password rand shuffle length true
        = String.mk (shuffle (
            ([pick rand 0 lowerChars, pick rand 1 upperChars,
              pick rand 2 digitChars] ++ [pick rand 3 punctChars])
            ++ (List.range (length - 4).toNat).map (fun i =>
                pick rand (4 + i)
                  (lowerChars ++ upperChars ++ digitChars ++ punctChars)))) := rfl
    rw [hrep, length_shuffle shuffle hsh]
    simp [h4]
  · have hrep : generate_password rand shuffle length false
        = String.mk (shuffle (
            [pick rand 0 lowerChars, pick rand 1 upperChars,
             pick rand 2 digitChars]
            ++ (List.range (length - 3).toNat).map (fun i =>
                pick rand (4 + i)
                  (lowerChars ++ upperChars ++ digitChars ++ [])))) := rfl
    rw [hrep, length_shuffle shuffle hsh]
    simp [h3]

/-- C9 amended witness: requested length −2 gives a 4-character password
with specials and a 3-character one without. -/
theorem generate_password_nonpositive_length_witness :
    (generate_password randZero id (-2) true).length = 4
    ∧ (generate_password randZero id (-2) false).length = 3 :=
  generate_password_nonpositive_length randZero id
    (fun l => List.Perm.refl l) (-2) (by decide)

end SPM
